import Mathlib

/-!
Verification development for the JUCE Projucer file
`jucer_RelativePositionedRectangle.h`.

Shallow-embedding conventions:
* C++ `double` is modelled as `ℚ` (exact rational arithmetic; the spec's
  "floating tolerance" becomes exact equality, and genuine rounding steps of
  the code — `roundToInt` — are modelled explicitly).
* C++ `int` / `int64` are modelled as `ℤ` (coordinate magnitudes in this
  component are far from overflow, which no claim is about).
* `juce::roundToInt` rounds to the nearest integer; ties are modelled as
  round-half-up (`round` on `ℚ`).  No claim in this development depends on
  tie behaviour.
* The `uint8` mode bytes are modelled as `Nat` bit masks, with `% 256` at the
  points where the source performs a `(uint8)` cast.
* `juce::String` values are modelled as `List Char`; the numeric formatter
  prints the exact decimal expansion of `m / 10^k` with all `k` fractional
  digits (JUCE additionally strips trailing fractional zeros, a purely
  cosmetic difference: both spellings parse to the same value, and no claim
  inspects the digit string beyond parsing it back).
-/

namespace JuceRel

/-- `juce::roundToInt`, modelled on exact rationals. -/
def roundToInt (v : ℚ) : ℤ := round v

/-- `juce::Rectangle<int>`: origin plus extent. -/
structure RectI where
  x : ℤ
  y : ℤ
  w : ℤ
  h : ℤ
deriving DecidableEq, Repr

/-! ### Mode bit constants (enums `AnchorPoint`, `PositionMode`, `SizeMode`) -/

def anchorAtLeftOrTop : Nat := 1
def anchorAtRightOrBottom : Nat := 2
def anchorAtCentre : Nat := 4
def absoluteFromParentTopLeft : Nat := 8
def absoluteFromParentBottomRight : Nat := 16
def absoluteFromParentCentre : Nat := 32
def proportionOfParentSize : Nat := 64
def absoluteSize : Nat := 1
def parentSizeMinusAbsolute : Nat := 2
def proportionalSize : Nat := 4

/-- `PositionedRectangle`: four raw coordinates plus four mode bytes. -/
structure PositionedRectangle where
  x : ℚ
  y : ℚ
  w : ℚ
  h : ℚ
  xMode : Nat
  yMode : Nat
  wMode : Nat
  hMode : Nat
deriving DecidableEq, Repr

/-- The default constructor `PositionedRectangle()`. -/
def defaultPositionedRectangle : PositionedRectangle :=
  ⟨0, 0, 0, 0,
   anchorAtLeftOrTop ||| absoluteFromParentTopLeft,
   anchorAtLeftOrTop ||| absoluteFromParentTopLeft,
   absoluteSize, absoluteSize⟩

/-! ### Forward evaluation (`applyPosAndSize`)

The source interleaves the size and position computation in one function;
the size result feeds the anchor correction of the position.  We split the
two data flows into `applySize` / `applyPos` and recombine them in
`applyPosAndSize`, which mirrors the source function line by line. -/

/-- Size half of `PositionedRectangle::applyPosAndSize`. -/
def applySize (w_ : ℚ) (wMode_ : Nat) (parentSize : ℤ) : ℚ :=
  if wMode_ = proportionalSize then
    ((roundToInt (w_ * parentSize) : ℤ) : ℚ)
  else if wMode_ = parentSizeMinusAbsolute then
    ((max 0 (parentSize - roundToInt w_) : ℤ) : ℚ)
  else
    ((roundToInt w_ : ℤ) : ℚ)

/-- Position half of `PositionedRectangle::applyPosAndSize`; `wOut` is the
already-resolved size used by the anchor correction. -/
def applyPos (x_ : ℚ) (xMode_ : Nat) (parentPos parentSize : ℤ) (wOut : ℚ) : ℚ :=
  let xOut : ℚ :=
    if xMode_ &&& proportionOfParentSize ≠ 0 then
      (parentPos : ℚ) + x_ * (parentSize : ℚ)
    else if xMode_ &&& absoluteFromParentBottomRight ≠ 0 then
      ((parentPos + parentSize : ℤ) : ℚ) - x_
    else if xMode_ &&& absoluteFromParentCentre ≠ 0 then
      x_ + ((parentPos + Int.tdiv parentSize 2 : ℤ) : ℚ)
    else
      x_ + (parentPos : ℚ)
  if xMode_ &&& anchorAtRightOrBottom ≠ 0 then xOut - wOut
  else if xMode_ &&& anchorAtCentre ≠ 0 then xOut - wOut / 2
  else xOut

/-- `PositionedRectangle::applyPosAndSize` (one axis): returns `(xOut, wOut)`. -/
def applyPosAndSize (x_ w_ : ℚ) (xMode_ wMode_ : Nat) (parentPos parentSize : ℤ) : ℚ × ℚ :=
  let wOut := applySize w_ wMode_ parentSize
  (applyPos x_ xMode_ parentPos parentSize wOut, wOut)

/-- `PositionedRectangle::getRectangle`. -/
def getRectangle (pr : PositionedRectangle) (target : RectI) : RectI :=
  let xw := applyPosAndSize pr.x pr.w pr.xMode pr.wMode target.x target.w
  let yh := applyPosAndSize pr.y pr.h pr.yMode pr.hMode target.y target.h
  ⟨roundToInt xw.1, roundToInt yh.1, roundToInt xw.2, roundToInt yh.2⟩

/-! ### Inverse evaluation (`updatePosAndSize`) -/

/-- Size half of `PositionedRectangle::updatePosAndSize`.  `wIn` is the stored
raw value (kept when the proportional branch skips on `parentSize ≤ 0`). -/
def updateSize (wIn newW : ℚ) (wMode_ : Nat) (parentSize : ℤ) : ℚ :=
  if wMode_ = proportionalSize then
    (if 0 < parentSize then newW / (parentSize : ℚ) else wIn)
  else if wMode_ = parentSizeMinusAbsolute then
    (parentSize : ℚ) - newW
  else
    newW

/-- Position half of `PositionedRectangle::updatePosAndSize`.  `xIn` is the
stored raw value; `newW` is the observed absolute extent used to undo the
anchor correction. -/
def updatePos (xIn newX newW : ℚ) (xMode_ : Nat) (parentPos parentSize : ℤ) : ℚ :=
  let x2 : ℚ :=
    if xMode_ &&& anchorAtRightOrBottom ≠ 0 then newX + newW
    else if xMode_ &&& anchorAtCentre ≠ 0 then newX + newW / 2
    else newX
  if xMode_ &&& proportionOfParentSize ≠ 0 then
    (if 0 < parentSize then (x2 - (parentPos : ℚ)) / (parentSize : ℚ) else xIn)
  else if xMode_ &&& absoluteFromParentBottomRight ≠ 0 then
    ((parentPos + parentSize : ℤ) : ℚ) - x2
  else if xMode_ &&& absoluteFromParentCentre ≠ 0 then
    x2 - ((parentPos + Int.tdiv parentSize 2 : ℤ) : ℚ)
  else
    x2 - (parentPos : ℚ)

/-- `PositionedRectangle::updatePosAndSize` (one axis): returns `(xOut, wOut)`. -/
def updatePosAndSize (xIn wIn newX newW : ℚ) (xMode_ wMode_ : Nat)
    (parentPos parentSize : ℤ) : ℚ × ℚ :=
  (updatePos xIn newX newW xMode_ parentPos parentSize,
   updateSize wIn newW wMode_ parentSize)

/-- `PositionedRectangle::updateFrom`. -/
def updateFrom (pr : PositionedRectangle) (newPosition target : RectI) :
    PositionedRectangle :=
  let xw := updatePosAndSize pr.x pr.w (newPosition.x : ℚ) (newPosition.w : ℚ)
      pr.xMode pr.wMode target.x target.w
  let yh := updatePosAndSize pr.y pr.h (newPosition.y : ℚ) (newPosition.h : ℚ)
      pr.yMode pr.hMode target.y target.h
  { pr with x := xw.1, w := xw.2, y := yh.1, h := yh.2 }

/-- `PositionedRectangle::setModes`. -/
def setModes (pr : PositionedRectangle)
    (xAnchor xMode_ yAnchor yMode_ widthMode heightMode : Nat)
    (target : RectI) : PositionedRectangle :=
  let pr1 :=
    if pr.xMode ≠ xAnchor ||| xMode_ ∨ pr.wMode ≠ widthMode then
      let t := applyPosAndSize pr.x pr.w pr.xMode pr.wMode target.x target.w
      let nxm := (xAnchor ||| xMode_) % 256
      let nwm := widthMode % 256
      let u := updatePosAndSize pr.x pr.w t.1 t.2 nxm nwm target.x target.w
      { pr with xMode := nxm, wMode := nwm, x := u.1, w := u.2 }
    else pr
  if pr1.yMode ≠ yAnchor ||| yMode_ ∨ pr1.hMode ≠ heightMode then
    let t := applyPosAndSize pr1.y pr1.h pr1.yMode pr1.hMode target.y target.h
    let nym := (yAnchor ||| yMode_) % 256
    let nhm := heightMode % 256
    let u := updatePosAndSize pr1.y pr1.h t.1 t.2 nym nhm target.y target.h
    { pr1 with yMode := nym, hMode := nhm, y := u.1, h := u.2 }
  else pr1

/-- `PositionedRectangle::isPositionAbsolute`. -/
def isPositionAbsolute (pr : PositionedRectangle) : Bool :=
  pr.xMode == absoluteFromParentTopLeft
    && pr.yMode == absoluteFromParentTopLeft
    && pr.wMode == absoluteSize
    && pr.hMode == absoluteSize

/-! ### Well-formed mode bytes

The data-model invariant: a position mode byte is one anchor bit OR'd with
one basis bit; a size mode byte is exactly one of the three size values. -/

def IsAnchor (a : Nat) : Prop :=
  a = anchorAtLeftOrTop ∨ a = anchorAtRightOrBottom ∨ a = anchorAtCentre

def IsPosBasis (b : Nat) : Prop :=
  b = absoluteFromParentTopLeft ∨ b = absoluteFromParentBottomRight ∨
  b = absoluteFromParentCentre ∨ b = proportionOfParentSize

def IsPosMode (m : Nat) : Prop :=
  m ∈ ([9, 17, 33, 65, 10, 18, 34, 66, 12, 20, 36, 68] : List Nat)

def IsSizeMode (m : Nat) : Prop := m ∈ ([1, 2, 4] : List Nat)

instance (a : Nat) : Decidable (IsAnchor a) := by unfold IsAnchor; infer_instance

instance (b : Nat) : Decidable (IsPosBasis b) := by unfold IsPosBasis; infer_instance

instance (m : Nat) : Decidable (IsPosMode m) := by unfold IsPosMode; infer_instance

instance (m : Nat) : Decidable (IsSizeMode m) := by unfold IsSizeMode; infer_instance

/-! ### Decimal formatting (the numeric part of `toString`)

The source prints `roundToInt (value * 100.0) / 100.0` (respectively
`* 100000.0` and `/ 1000.0` for percentages): an exact multiple of
`1 / 10^k`.  `formatQ m k` prints the exact decimal expansion of
`m / 10^k`. -/

/-- Decimal digits of `n`, most significant first (`"0"` for zero). -/
def natToChars (n : ℕ) : List Char :=
  if n = 0 then ['0'] else ((Nat.digits 10 n).reverse.map Nat.digitChar)

/-- The `k` fractional digits of `fp / 10^k` (`fp < 10^k`), most significant
first, zero-padded on the left. -/
def fracCharsOf (fp k : ℕ) : List Char :=
  ((Nat.digits 10 fp) ++ List.replicate (k - (Nat.digits 10 fp).length) 0).reverse.map
    Nat.digitChar

/-- Exact decimal rendering of `m / 10^k`. -/
def formatQ (m : ℤ) (k : ℕ) : List Char :=
  (if m < 0 then ['-'] else []) ++
    natToChars (m.natAbs / 10 ^ k) ++ '.' :: fracCharsOf (m.natAbs % 10 ^ k) k

/-! ### Numeric parsing (`String::getDoubleValue`)

The grammar only ever produces plain signed decimals (optional sign, digits,
optional fraction), the fragment of `juce::String::getDoubleValue` modelled
here; parsing stops at the first character that cannot extend the number and
yields `0` when no digits are present. -/

def digitVal (c : Char) : ℕ := c.toNat - 48

def parseNat (l : List Char) : ℕ := l.foldl (fun a c => 10 * a + digitVal c) 0

def readUnsigned (s : List Char) : ℚ :=
  let ipart := s.takeWhile Char.isDigit
  let rest := s.dropWhile Char.isDigit
  let fracDigits : List Char :=
    match rest with
    | [] => []
    | c :: t => if c = '.' then t.takeWhile Char.isDigit else []
  (parseNat ipart : ℚ) + (parseNat fracDigits : ℚ) / 10 ^ fracDigits.length

def getDoubleValue (s : List Char) : ℚ :=
  match s with
  | [] => 0
  | c :: t =>
    if c = '-' then - readUnsigned t
    else if c = '+' then readUnsigned t
    else readUnsigned (c :: t)

/-! ### Token encoding and decoding -/

/-- `PositionedRectangle::addPosDescription`. -/
def addPosDescription (mode : Nat) (value : ℚ) : List Char :=
  (if mode &&& proportionOfParentSize ≠ 0 then
     formatQ (roundToInt (value * 100000)) 3 ++ ['%']
   else
     formatQ (roundToInt (value * 100)) 2 ++
       (if mode &&& absoluteFromParentBottomRight ≠ 0 then ['R']
        else if mode &&& absoluteFromParentCentre ≠ 0 then ['C']
        else []))
  ++ (if mode &&& anchorAtRightOrBottom ≠ 0 then ['r']
      else if mode &&& anchorAtCentre ≠ 0 then ['c']
      else [])

/-- `PositionedRectangle::addSizeDescription`. -/
def addSizeDescription (mode : Nat) (value : ℚ) : List Char :=
  if mode = proportionalSize then
    formatQ (roundToInt (value * 100000)) 3 ++ ['%']
  else if mode = parentSizeMinusAbsolute then
    formatQ (roundToInt (value * 100)) 2 ++ ['M']
  else
    formatQ (roundToInt (value * 100)) 2

/-- `PositionedRectangle::decodePosString`: returns `(mode, value)`. -/
def decodePosString (s : List Char) : Nat × ℚ :=
  let anchor : Nat :=
    if 'r' ∈ s then anchorAtRightOrBottom
    else if 'c' ∈ s then anchorAtCentre
    else anchorAtLeftOrTop
  if '%' ∈ s then
    (anchor ||| proportionOfParentSize,
     getDoubleValue (s.filter (fun c => decide (c ∉ (['%', 'r', 'c', 'R', 'C'] : List Char)))) / 100)
  else
    let basis : Nat :=
      if 'R' ∈ s then absoluteFromParentBottomRight
      else if 'C' ∈ s then absoluteFromParentCentre
      else absoluteFromParentTopLeft
    (anchor ||| basis,
     getDoubleValue (s.filter (fun c => decide (c ∉ (['r', 'c', 'R', 'C'] : List Char)))))

/-- `PositionedRectangle::decodeSizeString`: returns `(mode, value)`. -/
def decodeSizeString (s : List Char) : Nat × ℚ :=
  if '%' ∈ s then
    (proportionalSize, getDoubleValue (s.takeWhile (fun c => decide (c ≠ '%'))) / 100)
  else if 'M' ∈ s then
    (parentSizeMinusAbsolute, getDoubleValue s)
  else
    (absoluteSize, getDoubleValue s)

/-! ### Whitespace tokenizing (`StringArray::addTokens` with the default
break characters) -/

def isSpaceChar (c : Char) : Bool :=
  c = ' ' || c = '\n' || c = '\r' || c = '\t'

def splitTokAux : List Char → List Char → List (List Char)
  | [], acc => [acc.reverse]
  | c :: t, acc =>
    if isSpaceChar c then acc.reverse :: splitTokAux t []
    else splitTokAux t (c :: acc)

/-- Tokens of a string: empty input yields no tokens; otherwise tokens are
the (possibly empty) runs between whitespace characters. -/
def tokenize (s : List Char) : List (List Char) :=
  if s = [] then [] else splitTokAux s []

/-! ### `toString` and the string constructor -/

/-- `PositionedRectangle::toString`. -/
def posRectToString (pr : PositionedRectangle) : List Char :=
  addPosDescription pr.xMode pr.x ++ ' ' ::
    (addPosDescription pr.yMode pr.y ++ ' ' ::
      (addSizeDescription pr.wMode pr.w ++ ' ' ::
        addSizeDescription pr.hMode pr.h))

/-- Body of `PositionedRectangle::PositionedRectangle (const String&)`, after
tokenizing: a missing token reads as the empty string (JUCE `StringArray`
subscript out of range). -/
def posRectFromTokens (ts : List (List Char)) : PositionedRectangle :=
  let xm := decodePosString (ts.getD 0 [])
  let ym := decodePosString (ts.getD 1 [])
  let wm := decodeSizeString (ts.getD 2 [])
  let hm := decodeSizeString (ts.getD 3 [])
  ⟨xm.2, ym.2, wm.2, hm.2, xm.1, ym.1, wm.1, hm.1⟩

/-- `PositionedRectangle::PositionedRectangle (const String&)`. -/
def posRectFromString (s : List Char) : PositionedRectangle :=
  posRectFromTokens (tokenize s)

/-! ### `RelativePositionedRectangle` -/

/-- The layout-resolver capability: `findComponentWithId`, returning the
bounds of the named component or `none`.  The C++ `layout` pointer may be
null, hence the outer `Option` at use sites. -/
abbrev LayoutResolver := ℤ → Option RectI

/-- `RelativePositionedRectangle`. -/
structure RelativePositionedRectangle where
  rect : PositionedRectangle
  relativeToX : ℤ
  relativeToY : ℤ
  relativeToW : ℤ
  relativeToH : ℤ
deriving DecidableEq, Repr

/-- The six reference values produced by
`RelativePositionedRectangle::getRelativeTargetBounds`. -/
structure TargetBounds where
  x : ℤ
  xw : ℤ
  y : ℤ
  yh : ℤ
  w : ℤ
  h : ℤ
deriving DecidableEq, Repr

/-- `RelativePositionedRectangle::getRelativeTargetBounds`. -/
def getRelativeTargetBounds (r : RelativePositionedRectangle) (parentArea : RectI)
    (layout : Option LayoutResolver) : TargetBounds :=
  let rx := match layout with | none => none | some f => f r.relativeToX
  let ry := match layout with | none => none | some f => f r.relativeToY
  let rw := match layout with | none => none | some f => f r.relativeToW
  let rh := match layout with | none => none | some f => f r.relativeToH
  { x := parentArea.x + (match rx with | some c => c.x | none => 0)
    y := parentArea.y + (match ry with | some c => c.y | none => 0)
    w := match rw with | some c => c.w | none => parentArea.w
    h := match rh with | some c => c.h | none => parentArea.h
    xw := match rx with | some c => c.w | none => parentArea.w
    yh := match ry with | some c => c.h | none => parentArea.h }

/-- `RelativePositionedRectangle::getRectangle`. -/
def RelativePositionedRectangle.getRectangle (r : RelativePositionedRectangle)
    (parentArea : RectI) (layout : Option LayoutResolver) : RectI :=
  let t := getRelativeTargetBounds r parentArea layout
  let xyRect : RectI :=
    if t.xw ≤ 0 ∨ t.yh ≤ 0 then ⟨0, 0, 0, 0⟩
    else JuceRel.getRectangle r.rect ⟨t.x, t.y, t.xw, t.yh⟩
  let whRect : RectI :=
    if t.w ≤ 0 ∨ t.h ≤ 0 then ⟨0, 0, 0, 0⟩
    else JuceRel.getRectangle r.rect ⟨t.x, t.y, t.w, t.h⟩
  ⟨xyRect.x, xyRect.y, whRect.w, whRect.h⟩

/-- `RelativePositionedRectangle::toString`. -/
def RelativePositionedRectangle.toText (r : RelativePositionedRectangle) : List Char :=
  let toks := tokenize (posRectToString r.rect)
  toks.getD 0 [] ++ ' ' :: toks.getD 1 []

/-! ### Restore lemmas: inverse evaluation after forward evaluation and back -/

lemma applySize_exists_int (w : ℚ) (wm : Nat) (ps : ℤ) :
    ∃ n : ℤ, applySize w wm ps = (n : ℚ) := by
  unfold applySize; split_ifs <;> exact ⟨_, rfl⟩

lemma applyPos_updatePos (xm : Nat) (hxm : IsPosMode xm) (pp ps : ℤ) (hps : 0 < ps)
    (xIn tx W : ℚ) :
    applyPos (updatePos xIn tx W xm pp ps) xm pp ps W = tx := by
  have hps0 : ((ps : ℚ)) ≠ 0 := Int.cast_ne_zero.mpr (by omega)
  unfold IsPosMode at hxm
  fin_cases hxm <;>
    (simp +decide only [applyPos, updatePos, proportionOfParentSize,
      absoluteFromParentBottomRight, absoluteFromParentCentre, anchorAtRightOrBottom,
      anchorAtCentre, hps, if_true]) <;>
    field_simp <;> ring

lemma updatePos_applyPos (xm : Nat) (hxm : IsPosMode xm) (pp ps : ℤ) (hps : 0 < ps)
    (x W : ℚ) :
    updatePos x (applyPos x xm pp ps W) W xm pp ps = x := by
  have hps0 : ((ps : ℚ)) ≠ 0 := Int.cast_ne_zero.mpr (by omega)
  unfold IsPosMode at hxm
  fin_cases hxm <;>
    (simp +decide only [applyPos, updatePos, proportionOfParentSize,
      absoluteFromParentBottomRight, absoluteFromParentCentre, anchorAtRightOrBottom,
      anchorAtCentre, hps, if_true]) <;>
    field_simp <;> ring

lemma applySize_updateSize (wm : Nat) (hwm : IsSizeMode wm) (ps : ℤ) (hps : 0 < ps)
    (wIn : ℚ) (n : ℤ) (hnn : wm = parentSizeMinusAbsolute → 0 ≤ n) :
    applySize (updateSize wIn (n : ℚ) wm ps) wm ps = (n : ℚ) := by
  have hps0 : ((ps : ℚ)) ≠ 0 := Int.cast_ne_zero.mpr (by omega)
  unfold IsSizeMode at hwm
  fin_cases hwm
  · simp +decide only [applySize, updateSize, roundToInt, if_true, if_false]
    rw [round_intCast]
  · simp +decide only [applySize, updateSize, roundToInt, parentSizeMinusAbsolute, if_true, if_false]
    have e1 : (ps : ℚ) - (n : ℚ) = ((ps - n : ℤ) : ℚ) := by push_cast; ring
    rw [e1, round_intCast]
    have hn : 0 ≤ n := hnn rfl
    have e2 : max 0 (ps - (ps - n)) = n := by omega
    rw [e2]
  · simp +decide only [applySize, updateSize, roundToInt, hps, if_true, if_false]
    have e1 : (n : ℚ) / (ps : ℚ) * (ps : ℚ) = (n : ℚ) := by field_simp
    rw [e1, round_intCast]

lemma updateSize_applySize (wm : Nat) (hwm : IsSizeMode wm) (ps : ℤ) (hps : 0 < ps)
    (w : ℚ)
    (h1 : wm = absoluteSize → ∃ n : ℤ, w = (n : ℚ))
    (h2 : wm = parentSizeMinusAbsolute → (∃ n : ℤ, w = (n : ℚ)) ∧ w ≤ (ps : ℚ))
    (h3 : wm = proportionalSize → ∃ n : ℤ, w * (ps : ℚ) = (n : ℚ)) :
    updateSize w (applySize w wm ps) wm ps = w := by
  have hps0 : ((ps : ℚ)) ≠ 0 := Int.cast_ne_zero.mpr (by omega)
  unfold IsSizeMode at hwm
  fin_cases hwm
  · obtain ⟨n, rfl⟩ := h1 rfl
    simp +decide only [applySize, updateSize, roundToInt, if_true, if_false]
    rw [round_intCast]
  · obtain ⟨⟨n, rfl⟩, hle⟩ := h2 rfl
    simp +decide only [applySize, updateSize, roundToInt, if_true, if_false]
    rw [round_intCast]
    have hn : n ≤ ps := by exact_mod_cast hle
    have e2 : max 0 (ps - n) = ps - n := by omega
    rw [e2]
    push_cast
    ring
  · obtain ⟨n, hn⟩ := h3 rfl
    simp +decide only [applySize, updateSize, roundToInt, hps, if_true, if_false]
    rw [hn, round_intCast, ← hn]
    field_simp


/-! ## Claim C1 -/

/-- Claim C1 (counterexample): with a proportional width and a positive
reference, forward evaluation rounds the resolved width to an integer, so the
inverse evaluation recovers a different raw value (`0.2` instead of `0.15` —
a real deviation of `0.05`, not floating error), even though the reference is
non-degenerate, no modes change and the zero-extent skip rule does not apply. -/
theorem claim_C1_counterexample :
    0 < (RectI.mk 0 0 10 10).w ∧ 0 < (RectI.mk 0 0 10 10).h ∧
    (updateFrom ⟨0, 0, 3/20, 0, 9, 9, 4, 1⟩
        (getRectangle ⟨0, 0, 3/20, 0, 9, 9, 4, 1⟩ ⟨0, 0, 10, 10⟩)
        ⟨0, 0, 10, 10⟩).wMode = (4 : Nat) ∧
    (updateFrom ⟨0, 0, 3/20, 0, 9, 9, 4, 1⟩
        (getRectangle ⟨0, 0, 3/20, 0, 9, 9, 4, 1⟩ ⟨0, 0, 10, 10⟩)
        ⟨0, 0, 10, 10⟩).w = 1/5 ∧
    (3 : ℚ)/20 ≠ 1/5 ∧
    updateFrom ⟨0, 0, 3/20, 0, 9, 9, 4, 1⟩
        (getRectangle ⟨0, 0, 3/20, 0, 9, 9, 4, 1⟩ ⟨0, 0, 10, 10⟩)
        ⟨0, 0, 10, 10⟩ ≠ ⟨0, 0, 3/20, 0, 9, 9, 4, 1⟩ := by
  with_unfolding_all decide

/-- Claim C1 (amended): `updateFrom` after `getRectangle` against the same
positive reference restores every raw coordinate exactly, provided forward
evaluation loses nothing to rounding: each resolved position is an integer,
raw sizes are integral in the absolute modes (and also no larger than the
reference extent in the parent-minus mode, so the clamp is inactive), and
proportional raw sizes resolve to integers. -/
theorem claim_C1 (P : PositionedRectangle) (R : RectI)
    (hxm : IsPosMode P.xMode) (hym : IsPosMode P.yMode)
    (hwm : IsSizeMode P.wMode) (hhm : IsSizeMode P.hMode)
    (hW : 0 < R.w) (hH : 0 < R.h)
    (hxint : ∃ n : ℤ, (applyPosAndSize P.x P.w P.xMode P.wMode R.x R.w).1 = (n : ℚ))
    (hyint : ∃ n : ℤ, (applyPosAndSize P.y P.h P.yMode P.hMode R.y R.h).1 = (n : ℚ))
    (hw1 : P.wMode = absoluteSize → ∃ n : ℤ, P.w = (n : ℚ))
    (hw2 : P.wMode = parentSizeMinusAbsolute → (∃ n : ℤ, P.w = (n : ℚ)) ∧ P.w ≤ (R.w : ℚ))
    (hw3 : P.wMode = proportionalSize → ∃ n : ℤ, P.w * (R.w : ℚ) = (n : ℚ))
    (hh1 : P.hMode = absoluteSize → ∃ n : ℤ, P.h = (n : ℚ))
    (hh2 : P.hMode = parentSizeMinusAbsolute → (∃ n : ℤ, P.h = (n : ℚ)) ∧ P.h ≤ (R.h : ℚ))
    (hh3 : P.hMode = proportionalSize → ∃ n : ℤ, P.h * (R.h : ℚ) = (n : ℚ)) :
    updateFrom P (getRectangle P R) R = P := by
  obtain ⟨px, py, pw, ph, pxm, pym, pwm, phm⟩ := P
  simp only at hxm hym hwm hhm hxint hyint hw1 hw2 hw3 hh1 hh2 hh3
  obtain ⟨nw, hnw⟩ := applySize_exists_int pw pwm R.w
  obtain ⟨nh, hnh⟩ := applySize_exists_int ph phm R.h
  simp only [applyPosAndSize] at hxint hyint
  obtain ⟨nx, hnx⟩ := hxint
  obtain ⟨ny, hny⟩ := hyint
  simp only [updateFrom, getRectangle, applyPosAndSize, updatePosAndSize,
    PositionedRectangle.mk.injEq]
  rw [hnx, hny, hnw, hnh]
  simp only [roundToInt, round_intCast]
  rw [← hnx, ← hny, ← hnw, ← hnh]
  refine ⟨?_, ?_, ?_, ?_, trivial, trivial, trivial, trivial⟩
  · exact updatePos_applyPos pxm hxm R.x R.w hW px (applySize pw pwm R.w)
  · exact updatePos_applyPos pym hym R.y R.h hH py (applySize ph phm R.h)
  · exact updateSize_applySize pwm hwm R.w hW pw hw1 hw2 hw3
  · exact updateSize_applySize phm hhm R.h hH ph hh1 hh2 hh3

/-- Witness for the amended claim C1 at a concrete input satisfying all
exactness hypotheses. -/
theorem claim_C1_witness :
    updateFrom ⟨1, 2, 1/2, 1/4, 9, 9, 4, 4⟩
        (getRectangle ⟨1, 2, 1/2, 1/4, 9, 9, 4, 4⟩ ⟨0, 0, 10, 20⟩)
        ⟨0, 0, 10, 20⟩ = ⟨1, 2, 1/2, 1/4, 9, 9, 4, 4⟩ := by
  exact claim_C1 ⟨1, 2, 1/2, 1/4, 9, 9, 4, 4⟩ ⟨0, 0, 10, 20⟩
    (by decide) (by decide) (by decide) (by decide) (by decide) (by decide)
    ⟨1, by with_unfolding_all decide⟩
    ⟨2, by with_unfolding_all decide⟩
    (fun h => absurd h (by decide)) (fun h => absurd h (by decide))
    (fun _ => ⟨5, by with_unfolding_all decide⟩)
    (fun h => absurd h (by decide)) (fun h => absurd h (by decide))
    (fun _ => ⟨5, by with_unfolding_all decide⟩)


/-! ## Claim C2 -/

/-- Claim C2 (counterexample): with width mode `parentSizeMinusAbsolute`, an
absolute rectangle of negative width is not reproduced: the forward clamp
`jmax (0, …)` turns the width into `0`. -/
theorem claim_C2_counterexample :
    0 < (RectI.mk 0 0 10 10).w ∧ 0 < (RectI.mk 0 0 10 10).h ∧
    (getRectangle (updateFrom ⟨0, 0, 0, 0, 9, 9, 2, 1⟩ ⟨0, 0, -1, 0⟩ ⟨0, 0, 10, 10⟩)
        ⟨0, 0, 10, 10⟩).w = 0 ∧
    (RectI.mk 0 0 (-1) 0).w = -1 ∧
    getRectangle (updateFrom ⟨0, 0, 0, 0, 9, 9, 2, 1⟩ ⟨0, 0, -1, 0⟩ ⟨0, 0, 10, 10⟩)
        ⟨0, 0, 10, 10⟩ ≠ ⟨0, 0, -1, 0⟩ := by
  with_unfolding_all decide

/-- Claim C2 (amended): after `updateFrom` with an absolute rectangle of
nonnegative extents and a positive reference, forward evaluation against the
unchanged reference reproduces the absolute rectangle exactly. -/
theorem claim_C2 (P : PositionedRectangle) (A R : RectI)
    (hxm : IsPosMode P.xMode) (hym : IsPosMode P.yMode)
    (hwm : IsSizeMode P.wMode) (hhm : IsSizeMode P.hMode)
    (hW : 0 < R.w) (hH : 0 < R.h) (hAw : 0 ≤ A.w) (hAh : 0 ≤ A.h) :
    getRectangle (updateFrom P A R) R = A := by
  obtain ⟨px, py, pw, ph, pxm, pym, pwm, phm⟩ := P
  obtain ⟨ax, ay, aw, ah⟩ := A
  simp only at hxm hym hwm hhm hAw hAh
  simp only [updateFrom, getRectangle, applyPosAndSize, updatePosAndSize, RectI.mk.injEq]
  have ew : applySize (updateSize pw (aw : ℚ) pwm R.w) pwm R.w = (aw : ℚ) :=
    applySize_updateSize pwm hwm R.w hW pw aw (fun _ => hAw)
  have eh : applySize (updateSize ph (ah : ℚ) phm R.h) phm R.h = (ah : ℚ) :=
    applySize_updateSize phm hhm R.h hH ph ah (fun _ => hAh)
  rw [ew, eh]
  have ex : applyPos (updatePos px (ax : ℚ) (aw : ℚ) pxm R.x R.w) pxm R.x R.w (aw : ℚ)
      = (ax : ℚ) := applyPos_updatePos pxm hxm R.x R.w hW px (ax : ℚ) (aw : ℚ)
  have ey : applyPos (updatePos py (ay : ℚ) (ah : ℚ) pym R.y R.h) pym R.y R.h (ah : ℚ)
      = (ay : ℚ) := applyPos_updatePos pym hym R.y R.h hH py (ay : ℚ) (ah : ℚ)
  rw [ex, ey]
  simp only [roundToInt, round_intCast]
  exact ⟨trivial, trivial, trivial, trivial⟩

/-- Witness for the amended claim C2 at a concrete input. -/
theorem claim_C2_witness :
    getRectangle (updateFrom ⟨7, 8, 9, 10, 18, 36, 2, 4⟩ ⟨3, 4, 5, 6⟩ ⟨1, 2, 10, 20⟩)
        ⟨1, 2, 10, 20⟩ = ⟨3, 4, 5, 6⟩ :=
  claim_C2 ⟨7, 8, 9, 10, 18, 36, 2, 4⟩ ⟨3, 4, 5, 6⟩ ⟨1, 2, 10, 20⟩
    (by decide) (by decide) (by decide) (by decide)
    (by decide) (by decide) (by decide) (by decide)


/-! ## Claim C3 -/

lemma orMod256_eq (a b : Nat) (ha : IsAnchor a) (hb : IsPosBasis b) :
    (a ||| b) % 256 = a ||| b := by
  rcases ha with rfl | rfl | rfl <;> rcases hb with rfl | rfl | rfl | rfl <;> decide

lemma isPosMode_or (a b : Nat) (ha : IsAnchor a) (hb : IsPosBasis b) :
    IsPosMode (a ||| b) := by
  rcases ha with rfl | rfl | rfl <;> rcases hb with rfl | rfl | rfl | rfl <;> decide

lemma sizeMode_mod256 (m : Nat) (hm : IsSizeMode m) : m % 256 = m := by
  unfold IsSizeMode at hm; fin_cases hm <;> decide

/-- One axis of `setModes`, recomputed case: forward evaluation of the
re-expressed raw values under the new modes yields exactly the forward
evaluation under the old modes. -/
lemma axis_after_setModes (x w : ℚ) (oxm owm nxm nwm : Nat)
    (hnxm : IsPosMode nxm) (hnwm : IsSizeMode nwm)
    (pp ps : ℤ) (hps : 0 < ps)
    (h0 : nwm = parentSizeMinusAbsolute → 0 ≤ applySize w owm ps) :
    applyPosAndSize
      (updatePos x (applyPos x oxm pp ps (applySize w owm ps)) (applySize w owm ps) nxm pp ps)
      (updateSize w (applySize w owm ps) nwm ps) nxm nwm pp ps
      = applyPosAndSize x w oxm owm pp ps := by
  obtain ⟨n, hn⟩ := applySize_exists_int w owm ps
  have h0n : nwm = parentSizeMinusAbsolute → 0 ≤ n := by
    intro h
    have := h0 h
    rw [hn] at this
    exact_mod_cast this
  have e2 : applySize (updateSize w (applySize w owm ps) nwm ps) nwm ps
      = applySize w owm ps := by
    rw [hn]
    exact applySize_updateSize nwm hnwm ps hps w n h0n
  simp only [applyPosAndSize]
  rw [e2]
  rw [applyPos_updatePos nxm hnxm pp ps hps x (applyPos x oxm pp ps (applySize w owm ps))
    (applySize w owm ps)]

/-- Claim C3 (counterexample): changing the width mode from absolute to
parent-minus-absolute while the resolved width is negative does not preserve
the resolved rectangle: the forward clamp turns `-5` into `0`. -/
theorem claim_C3_counterexample :
    0 < (RectI.mk 0 0 10 10).w ∧ 0 < (RectI.mk 0 0 10 10).h ∧
    (getRectangle (setModes ⟨0, 0, -5, 0, 9, 9, 1, 1⟩ 1 8 1 8 2 1 ⟨0, 0, 10, 10⟩)
        ⟨0, 0, 10, 10⟩).w = 0 ∧
    (getRectangle ⟨0, 0, -5, 0, 9, 9, 1, 1⟩ ⟨0, 0, 10, 10⟩).w = -5 ∧
    getRectangle (setModes ⟨0, 0, -5, 0, 9, 9, 1, 1⟩ 1 8 1 8 2 1 ⟨0, 0, 10, 10⟩)
        ⟨0, 0, 10, 10⟩ ≠ getRectangle ⟨0, 0, -5, 0, 9, 9, 1, 1⟩ ⟨0, 0, 10, 10⟩ := by
  with_unfolding_all decide

/-- Claim C3 (amended): against a positive reference, `setModes` preserves
the resolved rectangle exactly, provided that when a size mode is changed to
`parentSizeMinusAbsolute` the previously resolved size on that axis is
nonnegative (otherwise the forward clamp `jmax (0, …)` loses the value). -/
theorem claim_C3 (P : PositionedRectangle) (xa xb ya yb wm hm : Nat) (R : RectI)
    (hxa : IsAnchor xa) (hxb : IsPosBasis xb) (hya : IsAnchor ya) (hyb : IsPosBasis yb)
    (hwm : IsSizeMode wm) (hhm : IsSizeMode hm)
    (hW : 0 < R.w) (hH : 0 < R.h)
    (hw0 : wm = parentSizeMinusAbsolute →
      0 ≤ (applyPosAndSize P.x P.w P.xMode P.wMode R.x R.w).2)
    (hh0 : hm = parentSizeMinusAbsolute →
      0 ≤ (applyPosAndSize P.y P.h P.yMode P.hMode R.y R.h).2) :
    getRectangle (setModes P xa xb ya yb wm hm R) R = getRectangle P R := by
  obtain ⟨px, py, pw, ph, pxm, pym, pwm, phm⟩ := P
  simp only at hw0 hh0
  simp only [applyPosAndSize] at hw0 hh0
  have hxmode := orMod256_eq xa xb hxa hxb
  have hymode := orMod256_eq ya yb hya hyb
  have hwmode := sizeMode_mod256 wm hwm
  have hhmode := sizeMode_mod256 hm hhm
  simp only [setModes, hxmode, hymode, hwmode, hhmode]
  have hax : ∀ q1 w1 m1 m2,
      (applyPosAndSize q1 w1 m1 m2 R.x R.w = applyPosAndSize px pw pxm pwm R.x R.w) →
      (applyPosAndSize q1 w1 m1 m2 R.y R.h = applyPosAndSize py ph pym phm R.y R.h) →
      True := fun _ _ _ _ _ _ => trivial
  clear hax
  split_ifs with h1 h2 h2
  · -- both axes recomputed
    simp only [getRectangle, applyPosAndSize, updatePosAndSize, RectI.mk.injEq]
    have ex := axis_after_setModes px pw pxm pwm (xa ||| xb) wm
      (isPosMode_or xa xb hxa hxb) hwm R.x R.w hW hw0
    have ey := axis_after_setModes py ph pym phm (ya ||| yb) hm
      (isPosMode_or ya yb hya hyb) hhm R.y R.h hH hh0
    simp only [applyPosAndSize, updatePosAndSize] at ex ey
    rw [Prod.mk.injEq] at ex ey
    exact ⟨by rw [ex.1], by rw [ey.1], by rw [ex.2], by rw [ey.2]⟩
  · -- x recomputed, y untouched
    push_neg at h2
    simp only [getRectangle, applyPosAndSize, updatePosAndSize, RectI.mk.injEq]
    have ex := axis_after_setModes px pw pxm pwm (xa ||| xb) wm
      (isPosMode_or xa xb hxa hxb) hwm R.x R.w hW hw0
    simp only [applyPosAndSize, updatePosAndSize] at ex
    rw [Prod.mk.injEq] at ex
    exact ⟨by rw [ex.1], trivial, by rw [ex.2], trivial⟩
  · -- x untouched, y recomputed
    simp only [getRectangle, applyPosAndSize, updatePosAndSize, RectI.mk.injEq]
    have ey := axis_after_setModes py ph pym phm (ya ||| yb) hm
      (isPosMode_or ya yb hya hyb) hhm R.y R.h hH hh0
    simp only [applyPosAndSize, updatePosAndSize] at ey
    rw [Prod.mk.injEq] at ey
    exact ⟨trivial, by rw [ey.1], trivial, by rw [ey.2]⟩
  · rfl

/-- Witness for the amended claim C3 at a concrete input. -/
theorem claim_C3_witness :
    getRectangle (setModes ⟨0, 0, 5, 5, 9, 9, 1, 1⟩ 1 8 1 8 2 2 ⟨0, 0, 10, 10⟩)
        ⟨0, 0, 10, 10⟩ = getRectangle ⟨0, 0, 5, 5, 9, 9, 1, 1⟩ ⟨0, 0, 10, 10⟩ :=
  claim_C3 ⟨0, 0, 5, 5, 9, 9, 1, 1⟩ 1 8 1 8 2 2 ⟨0, 0, 10, 10⟩
    (by decide) (by decide) (by decide) (by decide) (by decide) (by decide)
    (by decide) (by decide)
    (fun _ => by with_unfolding_all decide)
    (fun _ => by with_unfolding_all decide)


/-! ## Claims C5, C6, C7, C8 -/

/-- Claim C5 (code exhibit): `isPositionAbsolute` compares the full mode byte
(anchor bit OR'd with basis bit) against the basis constant
`absoluteFromParentTopLeft` alone, so it returns `false` even for the
default-constructed rectangle, whose modes satisfy every condition of the
claim (left/top anchor, from-parent-top-left basis, absolute sizes). -/
theorem claim_C5_bug :
    isPositionAbsolute defaultPositionedRectangle = false ∧
    defaultPositionedRectangle.xMode = anchorAtLeftOrTop ||| absoluteFromParentTopLeft ∧
    defaultPositionedRectangle.yMode = anchorAtLeftOrTop ||| absoluteFromParentTopLeft ∧
    defaultPositionedRectangle.wMode = absoluteSize ∧
    defaultPositionedRectangle.hMode = absoluteSize := by
  decide

/-- Claim C6 (counterexample): the constructor signals nothing on malformed
input; the empty string (zero tokens, fewer than 4) silently produces
exactly the default-constructed rectangle. -/
theorem claim_C6_counterexample :
    tokenize [] = [] ∧ (tokenize []).length < 4 ∧
    posRectFromString [] = defaultPositionedRectangle := by
  with_unfolding_all decide

/-- Claim C6 (amended): a string with fewer than 4 tokens is parsed without
any error signal; the missing fields silently default (the fourth token is
always missing, giving absolute size mode and value `0`; with no tokens at
all the result is exactly the default-constructed rectangle). -/
theorem claim_C6 (ts : List (List Char)) (h : ts.length < 4) :
    (posRectFromTokens ts).h = 0 ∧ (posRectFromTokens ts).hMode = absoluteSize ∧
    (ts.length = 0 → posRectFromTokens ts = defaultPositionedRectangle) := by
  have h3 : ts.getD 3 [] = [] := List.getD_eq_default ts [] (by omega)
  have hdec : decodeSizeString ([] : List Char) = (absoluteSize, 0) := by
    with_unfolding_all decide
  refine ⟨?_, ?_, ?_⟩
  · show (decodeSizeString (ts.getD 3 [])).2 = 0
    rw [h3, hdec]
  · show (decodeSizeString (ts.getD 3 [])).1 = absoluteSize
    rw [h3, hdec]
  · intro h0
    rw [List.length_eq_zero] at h0
    subst h0
    with_unfolding_all decide

/-- Witness for the amended claim C6 at the empty token list. -/
theorem claim_C6_witness :
    (posRectFromTokens []).h = 0 ∧ (posRectFromTokens []).hMode = absoluteSize ∧
    (([] : List (List Char)).length = 0 →
      posRectFromTokens [] = defaultPositionedRectangle) :=
  claim_C6 [] (by decide)

/-- Claim C7: when the reference extent on an axis is non-positive,
`updateFrom` leaves the raw coordinate and raw size of that axis unchanged
when their modes are proportional (the partial-update skip, so no division
by zero is performed), while the non-proportional fields of that axis are
still recomputed (their new values do not depend on the old raw values). -/
theorem claim_C7 (P : PositionedRectangle) (A R : RectI) :
    (R.w ≤ 0 →
      (P.wMode = proportionalSize → (updateFrom P A R).w = P.w) ∧
      (P.xMode &&& proportionOfParentSize ≠ 0 → (updateFrom P A R).x = P.x) ∧
      (P.wMode ≠ proportionalSize →
        ∀ q : ℚ, (updateFrom { P with w := q } A R).w = (updateFrom P A R).w) ∧
      (P.xMode &&& proportionOfParentSize = 0 →
        ∀ q : ℚ, (updateFrom { P with x := q } A R).x = (updateFrom P A R).x)) ∧
    (R.h ≤ 0 →
      (P.hMode = proportionalSize → (updateFrom P A R).h = P.h) ∧
      (P.yMode &&& proportionOfParentSize ≠ 0 → (updateFrom P A R).y = P.y) ∧
      (P.hMode ≠ proportionalSize →
        ∀ q : ℚ, (updateFrom { P with h := q } A R).h = (updateFrom P A R).h) ∧
      (P.yMode &&& proportionOfParentSize = 0 →
        ∀ q : ℚ, (updateFrom { P with y := q } A R).y = (updateFrom P A R).y)) := by
  obtain ⟨px, py, pw, ph, pxm, pym, pwm, phm⟩ := P
  have hnl : ∀ s : ℤ, s ≤ 0 → ¬ (0 < s) := fun s hs => by omega
  constructor <;> intro hle
  · refine ⟨?_, ?_, ?_, ?_⟩
    · intro hm
      show updateSize pw (A.w : ℚ) pwm R.w = pw
      rw [updateSize, if_pos hm, if_neg (hnl _ hle)]
    · intro hm
      show updatePos px (A.x : ℚ) (A.w : ℚ) pxm R.x R.w = px
      rw [updatePos]
      simp only [if_pos hm, if_neg (hnl _ hle)]
    · intro hm q
      show updateSize q (A.w : ℚ) pwm R.w = updateSize pw (A.w : ℚ) pwm R.w
      rw [updateSize, updateSize, if_neg hm, if_neg hm]
    · intro hm q
      show updatePos q (A.x : ℚ) (A.w : ℚ) pxm R.x R.w
          = updatePos px (A.x : ℚ) (A.w : ℚ) pxm R.x R.w
      rw [updatePos, updatePos]
      simp only [if_neg (not_not_intro hm)]
  · refine ⟨?_, ?_, ?_, ?_⟩
    · intro hm
      show updateSize ph (A.h : ℚ) phm R.h = ph
      rw [updateSize, if_pos hm, if_neg (hnl _ hle)]
    · intro hm
      show updatePos py (A.y : ℚ) (A.h : ℚ) pym R.y R.h = py
      rw [updatePos]
      simp only [if_pos hm, if_neg (hnl _ hle)]
    · intro hm q
      show updateSize q (A.h : ℚ) phm R.h = updateSize ph (A.h : ℚ) phm R.h
      rw [updateSize, updateSize, if_neg hm, if_neg hm]
    · intro hm q
      show updatePos q (A.y : ℚ) (A.h : ℚ) pym R.y R.h
          = updatePos py (A.y : ℚ) (A.h : ℚ) pym R.y R.h
      rw [updatePos, updatePos]
      simp only [if_neg (not_not_intro hm)]

/-- Witness for claim C7 at a concrete degenerate reference. -/
theorem claim_C7_witness :
    (updateFrom ⟨1/3, 1/7, 2/3, 2/7, 65, 65, 4, 4⟩ ⟨5, 6, 7, 8⟩ ⟨0, 0, 0, -1⟩).w = 2/3 ∧
    (updateFrom ⟨1/3, 1/7, 2/3, 2/7, 65, 65, 4, 4⟩ ⟨5, 6, 7, 8⟩ ⟨0, 0, 0, -1⟩).x = 1/3 ∧
    (updateFrom ⟨1/3, 1/7, 2/3, 2/7, 65, 65, 4, 4⟩ ⟨5, 6, 7, 8⟩ ⟨0, 0, 0, -1⟩).h = 2/7 ∧
    (updateFrom ⟨1/3, 1/7, 2/3, 2/7, 65, 65, 4, 4⟩ ⟨5, 6, 7, 8⟩ ⟨0, 0, 0, -1⟩).y = 1/7 := by
  have hc := claim_C7 ⟨1/3, 1/7, 2/3, 2/7, 65, 65, 4, 4⟩ ⟨5, 6, 7, 8⟩ ⟨0, 0, 0, -1⟩
  exact ⟨(hc.1 (by decide)).1 (by decide), (hc.1 (by decide)).2.1 (by decide),
    (hc.2 (by decide)).1 (by decide), (hc.2 (by decide)).2.1 (by decide)⟩

/-- Claim C8: in `RelativePositionedRectangle::getRectangle`, a degenerate
position-reference rectangle forces output X and Y to `0`, and a degenerate
size-reference rectangle forces output W and H to `0`, instead of invoking
the leaf forward evaluation. -/
theorem claim_C8 (r : RelativePositionedRectangle) (parentArea : RectI)
    (layout : Option LayoutResolver) :
    (((getRelativeTargetBounds r parentArea layout).xw ≤ 0 ∨
      (getRelativeTargetBounds r parentArea layout).yh ≤ 0) →
      (r.getRectangle parentArea layout).x = 0 ∧
      (r.getRectangle parentArea layout).y = 0) ∧
    (((getRelativeTargetBounds r parentArea layout).w ≤ 0 ∨
      (getRelativeTargetBounds r parentArea layout).h ≤ 0) →
      (r.getRectangle parentArea layout).w = 0 ∧
      (r.getRectangle parentArea layout).h = 0) := by
  constructor <;> intro h <;>
    simp only [RelativePositionedRectangle.getRectangle] <;>
    rw [if_pos h] <;> exact ⟨rfl, rfl⟩

/-- Witness for claim C8 at a concrete degenerate parent area with no
resolver. -/
theorem claim_C8_witness :
    (RelativePositionedRectangle.getRectangle
        ⟨defaultPositionedRectangle, 0, 0, 0, 0⟩ ⟨3, 4, 0, 5⟩ none).x = 0 ∧
    (RelativePositionedRectangle.getRectangle
        ⟨defaultPositionedRectangle, 0, 0, 0, 0⟩ ⟨3, 4, 0, 5⟩ none).y = 0 ∧
    (RelativePositionedRectangle.getRectangle
        ⟨defaultPositionedRectangle, 0, 0, 0, 0⟩ ⟨3, 4, 0, 5⟩ none).w = 0 ∧
    (RelativePositionedRectangle.getRectangle
        ⟨defaultPositionedRectangle, 0, 0, 0, 0⟩ ⟨3, 4, 0, 5⟩ none).h = 0 := by
  have hc := claim_C8 ⟨defaultPositionedRectangle, 0, 0, 0, 0⟩ ⟨3, 4, 0, 5⟩ none
  have h1 := hc.1 (Or.inl (by decide))
  have h2 := hc.2 (Or.inl (by decide))
  exact ⟨h1.1, h1.2, h2.1, h2.2⟩


/-! ## Claim C9 -/

/-- Claim C9: the two documented grammar examples resolve as stated against
the reference rectangle `(0,0,200,100)`. -/
theorem claim_C9 :
    getRectangle (posRectFromString ("20% 30 150 50%".toList)) ⟨0, 0, 200, 100⟩
      = ⟨40, 30, 150, 50⟩ ∧
    getRectangle (posRectFromString ("10 10 20M 20M".toList)) ⟨0, 0, 200, 100⟩
      = ⟨10, 10, 180, 80⟩ := by
  with_unfolding_all decide



/-! ### Character and digit lemmas -/

lemma isDigit_digitChar (d : ℕ) (hd : d < 10) : (Nat.digitChar d).isDigit = true := by
  interval_cases d <;> decide

lemma digitVal_digitChar (d : ℕ) (hd : d < 10) : digitVal (Nat.digitChar d) = d := by
  interval_cases d <;> decide

lemma mem_natToChars (n : ℕ) : ∀ c ∈ natToChars n, c.isDigit = true := by
  intro c hc
  unfold natToChars at hc
  split at hc
  · simp only [List.mem_singleton] at hc
    subst hc; decide
  · simp only [List.mem_map, List.mem_reverse] at hc
    obtain ⟨d, hd, rfl⟩ := hc
    exact isDigit_digitChar d (Nat.digits_lt_base (by norm_num) hd)

lemma mem_fracCharsOf (fp k : ℕ) : ∀ c ∈ fracCharsOf fp k, c.isDigit = true := by
  intro c hc
  unfold fracCharsOf at hc
  simp only [List.mem_map, List.mem_reverse, List.mem_append, List.mem_replicate] at hc
  obtain ⟨d, hd | hd, rfl⟩ := hc
  · exact isDigit_digitChar d (Nat.digits_lt_base (by norm_num) hd)
  · rw [hd.2]; decide

lemma mem_formatQ (m : ℤ) (k : ℕ) :
    ∀ c ∈ formatQ m k, c.isDigit = true ∨ c = '-' ∨ c = '.' := by
  intro c hc
  unfold formatQ at hc
  simp only [List.mem_append, List.mem_cons] at hc
  rcases hc with (hc | hc) | hc | hc
  · split at hc
    · simp only [List.mem_singleton] at hc
      exact Or.inr (Or.inl hc)
    · simp at hc
  · exact Or.inl (mem_natToChars _ c hc)
  · exact Or.inr (Or.inr hc)
  · exact Or.inl (mem_fracCharsOf _ _ c hc)

lemma notMem_formatQ (m : ℤ) (k : ℕ) (c : Char) (h1 : c.isDigit = false)
    (h2 : c ≠ '-') (h3 : c ≠ '.') : c ∉ formatQ m k := by
  intro hc
  rcases mem_formatQ m k c hc with h | h | h
  · rw [h1] at h; cases h
  · exact h2 h
  · exact h3 h

/-! ### `parseNat` recovers what the digit printers produce -/

lemma parseNat_ofDigits (l : List ℕ) (hl : ∀ d ∈ l, d < 10) :
    parseNat (l.reverse.map Nat.digitChar) = Nat.ofDigits 10 l := by
  induction l with
  | nil => rfl
  | cons a l ih =>
    have ha : a < 10 := hl a (List.mem_cons_self a l)
    have hl2 : ∀ d ∈ l, d < 10 := fun d hd => hl d (List.mem_cons_of_mem a hd)
    rw [List.reverse_cons, List.map_append]
    unfold parseNat
    rw [List.foldl_append]
    have : List.foldl (fun a c => 10 * a + digitVal c) 0 (l.reverse.map Nat.digitChar)
        = Nat.ofDigits 10 l := ih hl2
    rw [this]
    simp only [List.map_cons, List.map_nil, List.foldl_cons, List.foldl_nil]
    rw [digitVal_digitChar a ha, Nat.ofDigits_cons]
    ring

lemma parseNat_natToChars (n : ℕ) : parseNat (natToChars n) = n := by
  unfold natToChars
  split
  · rename_i h
    rw [h]
    decide
  · rw [parseNat_ofDigits _ (fun d hd => Nat.digits_lt_base (by norm_num) hd)]
    exact Nat.ofDigits_digits 10 n

lemma ofDigits_replicate_zero (z : ℕ) : Nat.ofDigits 10 (List.replicate z 0) = 0 := by
  induction z with
  | zero => rfl
  | succ z ih => rw [List.replicate_succ, Nat.ofDigits_cons, ih]

lemma parseNat_fracCharsOf (fp k : ℕ) : parseNat (fracCharsOf fp k) = fp := by
  unfold fracCharsOf
  rw [parseNat_ofDigits]
  · rw [Nat.ofDigits_append, Nat.ofDigits_digits, ofDigits_replicate_zero]
    simp
  · intro d hd
    rcases List.mem_append.mp hd with h | h
    · exact Nat.digits_lt_base (by norm_num) h
    · rw [(List.mem_replicate.mp h).2]; norm_num

lemma digits_len_le_of_lt_pow (fp k : ℕ) (h : fp < 10 ^ k) :
    (Nat.digits 10 fp).length ≤ k := by
  rcases Nat.eq_zero_or_pos fp with rfl | hpos
  · simp
  · by_contra hk
    push_neg at hk
    have h1 : 10 ^ (Nat.digits 10 fp).length ≤ 10 * fp :=
      Nat.base_pow_length_digits_le 10 fp (by norm_num) (by omega)
    have h2 : 10 ^ (k + 1) ≤ 10 ^ (Nat.digits 10 fp).length :=
      Nat.pow_le_pow_right (by norm_num) hk
    have h3 : 10 * fp < 10 * 10 ^ k := by omega
    rw [pow_succ] at h2
    omega

lemma length_fracCharsOf (fp k : ℕ) (h : fp < 10 ^ k) :
    (fracCharsOf fp k).length = k := by
  unfold fracCharsOf
  have := digits_len_le_of_lt_pow fp k h
  simp only [List.length_map, List.length_reverse, List.length_append,
    List.length_replicate]
  omega



/-! ### takeWhile / dropWhile over concatenations -/

lemma takeWhile_append_all {p : Char → Bool} (l1 l2 : List Char)
    (h : ∀ c ∈ l1, p c = true) :
    (l1 ++ l2).takeWhile p = l1 ++ l2.takeWhile p := by
  induction l1 with
  | nil => rfl
  | cons a t ih =>
    have ha : p a = true := h a (List.mem_cons_self a t)
    simp only [List.cons_append, List.takeWhile_cons, ha, if_true]
    rw [ih (fun c hc => h c (List.mem_cons_of_mem a hc))]

lemma dropWhile_append_all {p : Char → Bool} (l1 l2 : List Char)
    (h : ∀ c ∈ l1, p c = true) :
    (l1 ++ l2).dropWhile p = l2.dropWhile p := by
  induction l1 with
  | nil => rfl
  | cons a t ih =>
    have ha : p a = true := h a (List.mem_cons_self a t)
    simp only [List.cons_append, List.dropWhile_cons, ha, if_true]
    exact ih (fun c hc => h c (List.mem_cons_of_mem a hc))

lemma takeWhile_eq_nil_all {p : Char → Bool} (l : List Char)
    (h : ∀ c ∈ l, p c = false) : l.takeWhile p = [] := by
  cases l with
  | nil => rfl
  | cons a t =>
    have ha : p a = false := h a (List.mem_cons_self a t)
    simp [List.takeWhile_cons, ha]

/-! ### `getDoubleValue` recovers what `formatQ` prints -/

lemma readUnsigned_format (n k : ℕ) (suffix : List Char)
    (hsuf : ∀ c ∈ suffix, c.isDigit = false) :
    readUnsigned (natToChars (n / 10 ^ k) ++ '.' :: (fracCharsOf (n % 10 ^ k) k ++ suffix))
      = (n : ℚ) / 10 ^ k := by
  have hmod : n % 10 ^ k < 10 ^ k := Nat.mod_lt n (by positivity)
  have htake : (natToChars (n / 10 ^ k) ++ '.' :: (fracCharsOf (n % 10 ^ k) k ++ suffix)).takeWhile Char.isDigit
      = natToChars (n / 10 ^ k) := by
    rw [takeWhile_append_all _ _ (mem_natToChars _)]
    simp [List.takeWhile_cons]
  have hdrop : (natToChars (n / 10 ^ k) ++ '.' :: (fracCharsOf (n % 10 ^ k) k ++ suffix)).dropWhile Char.isDigit
      = '.' :: (fracCharsOf (n % 10 ^ k) k ++ suffix) := by
    rw [dropWhile_append_all _ _ (mem_natToChars _)]
    simp [List.dropWhile_cons]
  unfold readUnsigned
  rw [htake, hdrop]
  simp only [if_pos rfl, if_true]
  rw [takeWhile_append_all _ _ (mem_fracCharsOf _ _), takeWhile_eq_nil_all _ hsuf,
    List.append_nil, parseNat_natToChars, parseNat_fracCharsOf,
    length_fracCharsOf _ _ hmod]
  have h10 : ((10 : ℚ) ^ k) ≠ 0 := by positivity
  have hk : (10 : ℕ) ^ k * (n / 10 ^ k) + n % 10 ^ k = n := Nat.div_add_mod n (10 ^ k)
  have key : (10 : ℚ) ^ k * ((n / 10 ^ k : ℕ) : ℚ) + ((n % 10 ^ k : ℕ) : ℚ) = (n : ℚ) := by
    exact_mod_cast hk
  field_simp
  linear_combination key

lemma exists_digit_head_natToChars (n : ℕ) :
    ∃ c t, natToChars n = c :: t ∧ c.isDigit = true := by
  rcases h : natToChars n with _ | ⟨c, t⟩
  · exfalso
    unfold natToChars at h
    split at h
    · cases h
    · rename_i hn
      have := List.map_eq_nil_iff.mp h
      rw [List.reverse_eq_nil_iff] at this
      exact hn (Nat.digits_eq_nil_iff_eq_zero.mp this)
  · exact ⟨c, t, rfl, mem_natToChars n c (h ▸ List.mem_cons_self c t)⟩

lemma getDouble_of_digit_head (c : Char) (t : List Char) (hc : c.isDigit = true) :
    getDoubleValue (c :: t) = readUnsigned (c :: t) := by
  have h1 : c ≠ '-' := fun e => by subst e; cases hc
  have h2 : c ≠ '+' := fun e => by subst e; cases hc
  simp only [getDoubleValue]
  rw [if_neg h1, if_neg h2]

lemma getDoubleValue_formatQ (m : ℤ) (k : ℕ) (suffix : List Char)
    (hsuf : ∀ c ∈ suffix, c.isDigit = false) :
    getDoubleValue (formatQ m k ++ suffix) = (m : ℚ) / 10 ^ k := by
  unfold formatQ
  by_cases hm : m < 0
  · rw [if_pos hm]
    obtain ⟨c, t, hct, hc⟩ := exists_digit_head_natToChars (m.natAbs / 10 ^ k)
    simp only [List.cons_append, List.append_assoc, List.nil_append, List.singleton_append]
    have : getDoubleValue
        ('-' :: (natToChars (m.natAbs / 10 ^ k) ++ '.' :: (fracCharsOf (m.natAbs % 10 ^ k) k ++ suffix)))
        = - readUnsigned (natToChars (m.natAbs / 10 ^ k) ++ '.' :: (fracCharsOf (m.natAbs % 10 ^ k) k ++ suffix)) := by
      simp only [getDoubleValue]
      simp only [if_true]
    rw [this, readUnsigned_format _ _ _ hsuf]
    have : ((m.natAbs : ℚ)) = -(m : ℚ) := by
      rw [Int.cast_natAbs]
      simp [abs_of_neg (show (m : ℚ) < 0 by exact_mod_cast hm)]
    rw [this]
    ring
  · rw [if_neg hm]
    obtain ⟨c, t, hct, hc⟩ := exists_digit_head_natToChars (m.natAbs / 10 ^ k)
    simp only [List.nil_append, List.append_assoc, List.cons_append]
    rw [hct]
    simp only [List.cons_append]
    rw [getDouble_of_digit_head c _ hc, ← List.cons_append, ← hct,
      readUnsigned_format _ _ _ hsuf]
    have : ((m.natAbs : ℚ)) = (m : ℚ) := by
      rw [Int.cast_natAbs]
      simp [abs_of_nonneg (show (0:ℚ) ≤ (m : ℚ) by exact_mod_cast not_lt.mp hm)]
    rw [this]



/-! ### The formatted number contains no suffix letters -/

lemma digit_ne (c c' : Char) (h : c.isDigit = true) (h' : c'.isDigit = false) :
    c ≠ c' := fun e => by subst e; rw [h] at h'; cases h'

lemma pct_notMem_formatQ (m : ℤ) (k : ℕ) : '%' ∉ formatQ m k :=
  notMem_formatQ m k '%' (by decide) (by decide) (by decide)

lemma rr_notMem_formatQ (m : ℤ) (k : ℕ) : 'r' ∉ formatQ m k :=
  notMem_formatQ m k 'r' (by decide) (by decide) (by decide)

lemma cc_notMem_formatQ (m : ℤ) (k : ℕ) : 'c' ∉ formatQ m k :=
  notMem_formatQ m k 'c' (by decide) (by decide) (by decide)

lemma bigR_notMem_formatQ (m : ℤ) (k : ℕ) : 'R' ∉ formatQ m k :=
  notMem_formatQ m k 'R' (by decide) (by decide) (by decide)

lemma bigC_notMem_formatQ (m : ℤ) (k : ℕ) : 'C' ∉ formatQ m k :=
  notMem_formatQ m k 'C' (by decide) (by decide) (by decide)

lemma bigM_notMem_formatQ (m : ℤ) (k : ℕ) : 'M' ∉ formatQ m k :=
  notMem_formatQ m k 'M' (by decide) (by decide) (by decide)

lemma filter_pos_formatQ (m : ℤ) (k : ℕ) :
    (formatQ m k).filter (fun c => decide (c ∉ (['%', 'r', 'c', 'R', 'C'] : List Char)))
      = formatQ m k := by
  apply List.filter_eq_self.mpr
  intro c hc
  simp only [decide_eq_true_eq]
  rcases mem_formatQ m k c hc with h | h | h
  · intro hmem
    fin_cases hmem <;> simp_all
  · subst h; decide
  · subst h; decide

lemma filter_pos2_formatQ (m : ℤ) (k : ℕ) :
    (formatQ m k).filter (fun c => decide (c ∉ (['r', 'c', 'R', 'C'] : List Char)))
      = formatQ m k := by
  apply List.filter_eq_self.mpr
  intro c hc
  simp only [decide_eq_true_eq]
  rcases mem_formatQ m k c hc with h | h | h
  · intro hmem
    fin_cases hmem <;> simp_all
  · subst h; decide
  · subst h; decide

lemma takeWhile_pct_formatQ (m : ℤ) (k : ℕ) :
    ∀ c ∈ formatQ m k, (fun c => decide (c ≠ '%')) c = true := by
  intro c hc
  simp only [decide_eq_true_eq]
  rcases mem_formatQ m k c hc with h | h | h
  · exact digit_ne c '%' h (by decide)
  · subst h; decide
  · subst h; decide

lemma getDoubleValue_formatQ_nil (m : ℤ) (k : ℕ) :
    getDoubleValue (formatQ m k) = (m : ℚ) / 10 ^ k := by
  have := getDoubleValue_formatQ m k [] (by simp)
  rwa [List.append_nil] at this



lemma notMem_append {c : Char} {l1 l2 : List Char} (h1 : c ∉ l1) (h2 : c ∉ l2) :
    c ∉ l1 ++ l2 := fun h => (List.mem_append.mp h).elim h1 h2

lemma filter_pred1_nil (SUF : List Char)
    (h : ∀ c ∈ SUF, c ∈ (['%', 'r', 'c', 'R', 'C'] : List Char)) :
    SUF.filter (fun c => decide (c ∉ (['%', 'r', 'c', 'R', 'C'] : List Char))) = [] := by
  rw [List.filter_eq_nil_iff]
  intro c hc
  simp only [decide_eq_true_eq, not_not]
  exact h c hc

lemma filter_pred2_nil (SUF : List Char)
    (h : ∀ c ∈ SUF, c ∈ (['r', 'c', 'R', 'C'] : List Char)) :
    SUF.filter (fun c => decide (c ∉ (['r', 'c', 'R', 'C'] : List Char))) = [] := by
  rw [List.filter_eq_nil_iff]
  intro c hc
  simp only [decide_eq_true_eq, not_not]
  exact h c hc

/-- Decoding an encoded position token restores the mode byte exactly and
the raw value rounded at the grammar precision (3 decimal places of the
percentage for proportional bases, i.e. `1/100000` of the raw fraction;
2 decimal places for absolute bases). -/
lemma decodePos_addPos (m : Nat) (hm : IsPosMode m) (v : ℚ) :
    decodePosString (addPosDescription m v) =
      (m, if m &&& proportionOfParentSize ≠ 0
          then ((roundToInt (v * 100000) : ℤ) : ℚ) / 100000
          else ((roundToInt (v * 100) : ℤ) : ℚ) / 100) := by
  unfold IsPosMode at hm
  fin_cases hm
  · simp +decide only [proportionOfParentSize, if_true, if_false]
    have hshape : addPosDescription 9 v = formatQ (roundToInt (v * 100)) 2 := by
      simp +decide only [addPosDescription, if_true, if_false, List.append_nil,
        List.append_assoc, List.singleton_append]
    rw [hshape]
    simp only [decodePosString]
    rw [if_neg (rr_notMem_formatQ _ _),
      if_neg (cc_notMem_formatQ _ _),
      if_neg (pct_notMem_formatQ _ _),
      if_neg (bigR_notMem_formatQ _ _),
      if_neg (bigC_notMem_formatQ _ _)]
    rw [filter_pos2_formatQ, getDoubleValue_formatQ_nil]
    simp only [Prod.mk.injEq]
    refine ⟨by decide, ?_⟩
    norm_num
  · simp +decide only [proportionOfParentSize, if_true, if_false]
    have hshape : addPosDescription 17 v = formatQ (roundToInt (v * 100)) 2 ++ ['R'] := by
      simp +decide only [addPosDescription, if_true, if_false, List.append_nil,
        List.append_assoc, List.singleton_append]
    rw [hshape]
    simp only [decodePosString]
    rw [if_neg (notMem_append (rr_notMem_formatQ _ _) (by decide)),
      if_neg (notMem_append (cc_notMem_formatQ _ _) (by decide)),
      if_neg (notMem_append (pct_notMem_formatQ _ _) (by decide)),
      if_pos (show ('R' : Char) ∈ formatQ (roundToInt (v * 100)) 2 ++ ['R'] from List.mem_append_right _ (by decide))]
    rw [List.filter_append, filter_pos2_formatQ, filter_pred2_nil _ (by decide),
      List.append_nil, getDoubleValue_formatQ_nil]
    simp only [Prod.mk.injEq]
    refine ⟨by decide, ?_⟩
    norm_num
  · simp +decide only [proportionOfParentSize, if_true, if_false]
    have hshape : addPosDescription 33 v = formatQ (roundToInt (v * 100)) 2 ++ ['C'] := by
      simp +decide only [addPosDescription, if_true, if_false, List.append_nil,
        List.append_assoc, List.singleton_append]
    rw [hshape]
    simp only [decodePosString]
    rw [if_neg (notMem_append (rr_notMem_formatQ _ _) (by decide)),
      if_neg (notMem_append (cc_notMem_formatQ _ _) (by decide)),
      if_neg (notMem_append (pct_notMem_formatQ _ _) (by decide)),
      if_neg (notMem_append (bigR_notMem_formatQ _ _) (by decide)),
      if_pos (show ('C' : Char) ∈ formatQ (roundToInt (v * 100)) 2 ++ ['C'] from List.mem_append_right _ (by decide))]
    rw [List.filter_append, filter_pos2_formatQ, filter_pred2_nil _ (by decide),
      List.append_nil, getDoubleValue_formatQ_nil]
    simp only [Prod.mk.injEq]
    refine ⟨by decide, ?_⟩
    norm_num
  · simp +decide only [proportionOfParentSize, if_true, if_false]
    have hshape : addPosDescription 65 v = formatQ (roundToInt (v * 100000)) 3 ++ ['%'] := by
      simp +decide only [addPosDescription, if_true, if_false, List.append_nil,
        List.append_assoc, List.singleton_append]
    rw [hshape]
    simp only [decodePosString]
    rw [if_neg (notMem_append (rr_notMem_formatQ _ _) (by decide)),
      if_neg (notMem_append (cc_notMem_formatQ _ _) (by decide)),
      if_pos (show ('%' : Char) ∈ formatQ (roundToInt (v * 100000)) 3 ++ ['%'] from List.mem_append_right _ (by decide))]
    rw [List.filter_append, filter_pos_formatQ, filter_pred1_nil _ (by decide),
      List.append_nil, getDoubleValue_formatQ_nil]
    simp only [Prod.mk.injEq]
    refine ⟨by decide, ?_⟩
    rw [div_div]
    norm_num
  · simp +decide only [proportionOfParentSize, if_true, if_false]
    have hshape : addPosDescription 10 v = formatQ (roundToInt (v * 100)) 2 ++ ['r'] := by
      simp +decide only [addPosDescription, if_true, if_false, List.append_nil,
        List.append_assoc, List.singleton_append]
    rw [hshape]
    simp only [decodePosString]
    rw [if_pos (show ('r' : Char) ∈ formatQ (roundToInt (v * 100)) 2 ++ ['r'] from List.mem_append_right _ (by decide)),
      if_neg (notMem_append (pct_notMem_formatQ _ _) (by decide)),
      if_neg (notMem_append (bigR_notMem_formatQ _ _) (by decide)),
      if_neg (notMem_append (bigC_notMem_formatQ _ _) (by decide))]
    rw [List.filter_append, filter_pos2_formatQ, filter_pred2_nil _ (by decide),
      List.append_nil, getDoubleValue_formatQ_nil]
    simp only [Prod.mk.injEq]
    refine ⟨by decide, ?_⟩
    norm_num
  · simp +decide only [proportionOfParentSize, if_true, if_false]
    have hshape : addPosDescription 18 v = formatQ (roundToInt (v * 100)) 2 ++ ['R', 'r'] := by
      simp +decide only [addPosDescription, if_true, if_false, List.append_nil,
        List.append_assoc, List.singleton_append]
    rw [hshape]
    simp only [decodePosString]
    rw [if_pos (show ('r' : Char) ∈ formatQ (roundToInt (v * 100)) 2 ++ ['R', 'r'] from List.mem_append_right _ (by decide)),
      if_neg (notMem_append (pct_notMem_formatQ _ _) (by decide)),
      if_pos (show ('R' : Char) ∈ formatQ (roundToInt (v * 100)) 2 ++ ['R', 'r'] from List.mem_append_right _ (by decide))]
    rw [List.filter_append, filter_pos2_formatQ, filter_pred2_nil _ (by decide),
      List.append_nil, getDoubleValue_formatQ_nil]
    simp only [Prod.mk.injEq]
    refine ⟨by decide, ?_⟩
    norm_num
  · simp +decide only [proportionOfParentSize, if_true, if_false]
    have hshape : addPosDescription 34 v = formatQ (roundToInt (v * 100)) 2 ++ ['C', 'r'] := by
      simp +decide only [addPosDescription, if_true, if_false, List.append_nil,
        List.append_assoc, List.singleton_append]
    rw [hshape]
    simp only [decodePosString]
    rw [if_pos (show ('r' : Char) ∈ formatQ (roundToInt (v * 100)) 2 ++ ['C', 'r'] from List.mem_append_right _ (by decide)),
      if_neg (notMem_append (pct_notMem_formatQ _ _) (by decide)),
      if_neg (notMem_append (bigR_notMem_formatQ _ _) (by decide)),
      if_pos (show ('C' : Char) ∈ formatQ (roundToInt (v * 100)) 2 ++ ['C', 'r'] from List.mem_append_right _ (by decide))]
    rw [List.filter_append, filter_pos2_formatQ, filter_pred2_nil _ (by decide),
      List.append_nil, getDoubleValue_formatQ_nil]
    simp only [Prod.mk.injEq]
    refine ⟨by decide, ?_⟩
    norm_num
  · simp +decide only [proportionOfParentSize, if_true, if_false]
    have hshape : addPosDescription 66 v = formatQ (roundToInt (v * 100000)) 3 ++ ['%', 'r'] := by
      simp +decide only [addPosDescription, if_true, if_false, List.append_nil,
        List.append_assoc, List.singleton_append]
    rw [hshape]
    simp only [decodePosString]
    rw [if_pos (show ('r' : Char) ∈ formatQ (roundToInt (v * 100000)) 3 ++ ['%', 'r'] from List.mem_append_right _ (by decide)),
      if_pos (show ('%' : Char) ∈ formatQ (roundToInt (v * 100000)) 3 ++ ['%', 'r'] from List.mem_append_right _ (by decide))]
    rw [List.filter_append, filter_pos_formatQ, filter_pred1_nil _ (by decide),
      List.append_nil, getDoubleValue_formatQ_nil]
    simp only [Prod.mk.injEq]
    refine ⟨by decide, ?_⟩
    rw [div_div]
    norm_num
  · simp +decide only [proportionOfParentSize, if_true, if_false]
    have hshape : addPosDescription 12 v = formatQ (roundToInt (v * 100)) 2 ++ ['c'] := by
      simp +decide only [addPosDescription, if_true, if_false, List.append_nil,
        List.append_assoc, List.singleton_append]
    rw [hshape]
    simp only [decodePosString]
    rw [if_neg (notMem_append (rr_notMem_formatQ _ _) (by decide)),
      if_pos (show ('c' : Char) ∈ formatQ (roundToInt (v * 100)) 2 ++ ['c'] from List.mem_append_right _ (by decide)),
      if_neg (notMem_append (pct_notMem_formatQ _ _) (by decide)),
      if_neg (notMem_append (bigR_notMem_formatQ _ _) (by decide)),
      if_neg (notMem_append (bigC_notMem_formatQ _ _) (by decide))]
    rw [List.filter_append, filter_pos2_formatQ, filter_pred2_nil _ (by decide),
      List.append_nil, getDoubleValue_formatQ_nil]
    simp only [Prod.mk.injEq]
    refine ⟨by decide, ?_⟩
    norm_num
  · simp +decide only [proportionOfParentSize, if_true, if_false]
    have hshape : addPosDescription 20 v = formatQ (roundToInt (v * 100)) 2 ++ ['R', 'c'] := by
      simp +decide only [addPosDescription, if_true, if_false, List.append_nil,
        List.append_assoc, List.singleton_append]
    rw [hshape]
    simp only [decodePosString]
    rw [if_neg (notMem_append (rr_notMem_formatQ _ _) (by decide)),
      if_pos (show ('c' : Char) ∈ formatQ (roundToInt (v * 100)) 2 ++ ['R', 'c'] from List.mem_append_right _ (by decide)),
      if_neg (notMem_append (pct_notMem_formatQ _ _) (by decide)),
      if_pos (show ('R' : Char) ∈ formatQ (roundToInt (v * 100)) 2 ++ ['R', 'c'] from List.mem_append_right _ (by decide))]
    rw [List.filter_append, filter_pos2_formatQ, filter_pred2_nil _ (by decide),
      List.append_nil, getDoubleValue_formatQ_nil]
    simp only [Prod.mk.injEq]
    refine ⟨by decide, ?_⟩
    norm_num
  · simp +decide only [proportionOfParentSize, if_true, if_false]
    have hshape : addPosDescription 36 v = formatQ (roundToInt (v * 100)) 2 ++ ['C', 'c'] := by
      simp +decide only [addPosDescription, if_true, if_false, List.append_nil,
        List.append_assoc, List.singleton_append]
    rw [hshape]
    simp only [decodePosString]
    rw [if_neg (notMem_append (rr_notMem_formatQ _ _) (by decide)),
      if_pos (show ('c' : Char) ∈ formatQ (roundToInt (v * 100)) 2 ++ ['C', 'c'] from List.mem_append_right _ (by decide)),
      if_neg (notMem_append (pct_notMem_formatQ _ _) (by decide)),
      if_neg (notMem_append (bigR_notMem_formatQ _ _) (by decide)),
      if_pos (show ('C' : Char) ∈ formatQ (roundToInt (v * 100)) 2 ++ ['C', 'c'] from List.mem_append_right _ (by decide))]
    rw [List.filter_append, filter_pos2_formatQ, filter_pred2_nil _ (by decide),
      List.append_nil, getDoubleValue_formatQ_nil]
    simp only [Prod.mk.injEq]
    refine ⟨by decide, ?_⟩
    norm_num
  · simp +decide only [proportionOfParentSize, if_true, if_false]
    have hshape : addPosDescription 68 v = formatQ (roundToInt (v * 100000)) 3 ++ ['%', 'c'] := by
      simp +decide only [addPosDescription, if_true, if_false, List.append_nil,
        List.append_assoc, List.singleton_append]
    rw [hshape]
    simp only [decodePosString]
    rw [if_neg (notMem_append (rr_notMem_formatQ _ _) (by decide)),
      if_pos (show ('c' : Char) ∈ formatQ (roundToInt (v * 100000)) 3 ++ ['%', 'c'] from List.mem_append_right _ (by decide)),
      if_pos (show ('%' : Char) ∈ formatQ (roundToInt (v * 100000)) 3 ++ ['%', 'c'] from List.mem_append_right _ (by decide))]
    rw [List.filter_append, filter_pos_formatQ, filter_pred1_nil _ (by decide),
      List.append_nil, getDoubleValue_formatQ_nil]
    simp only [Prod.mk.injEq]
    refine ⟨by decide, ?_⟩
    rw [div_div]
    norm_num



/-- Decoding an encoded size token restores the mode exactly and the raw
value rounded at the grammar precision. -/
lemma decodeSize_addSize (m : Nat) (hm : IsSizeMode m) (v : ℚ) :
    decodeSizeString (addSizeDescription m v) =
      (m, if m = proportionalSize
          then ((roundToInt (v * 100000) : ℤ) : ℚ) / 100000
          else ((roundToInt (v * 100) : ℤ) : ℚ) / 100) := by
  unfold IsSizeMode at hm
  fin_cases hm
  · simp +decide only [proportionalSize, if_true, if_false]
    have hshape : addSizeDescription 1 v = formatQ (roundToInt (v * 100)) 2 := by
      simp +decide only [addSizeDescription, absoluteSize, parentSizeMinusAbsolute,
        proportionalSize, if_true, if_false]
    rw [hshape]
    simp only [decodeSizeString]
    rw [if_neg (pct_notMem_formatQ _ _), if_neg (bigM_notMem_formatQ _ _),
      getDoubleValue_formatQ_nil]
    simp only [Prod.mk.injEq]
    refine ⟨by decide, ?_⟩
    norm_num
  · simp +decide only [proportionalSize, if_true, if_false]
    have hshape : addSizeDescription 2 v = formatQ (roundToInt (v * 100)) 2 ++ ['M'] := by
      simp +decide only [addSizeDescription, absoluteSize, parentSizeMinusAbsolute,
        proportionalSize, if_true, if_false]
    rw [hshape]
    simp only [decodeSizeString]
    rw [if_neg (notMem_append (pct_notMem_formatQ _ _) (by decide)),
      if_pos (show ('M' : Char) ∈ formatQ (roundToInt (v * 100)) 2 ++ ['M'] from
        List.mem_append_right _ (by decide)),
      getDoubleValue_formatQ _ _ ['M'] (by decide)]
    simp only [Prod.mk.injEq]
    refine ⟨by decide, ?_⟩
    norm_num
  · simp +decide only [proportionalSize, if_true, if_false]
    have hshape : addSizeDescription 4 v = formatQ (roundToInt (v * 100000)) 3 ++ ['%'] := by
      simp +decide only [addSizeDescription, absoluteSize, parentSizeMinusAbsolute,
        proportionalSize, if_true, if_false]
    rw [hshape]
    simp only [decodeSizeString]
    rw [if_pos (show ('%' : Char) ∈ formatQ (roundToInt (v * 100000)) 3 ++ ['%'] from
        List.mem_append_right _ (by decide)),
      takeWhile_append_all _ _ (takeWhile_pct_formatQ _ _),
      takeWhile_eq_nil_all _ (by decide), List.append_nil, getDoubleValue_formatQ_nil]
    simp only [Prod.mk.injEq]
    refine ⟨by decide, ?_⟩
    rw [div_div]
    norm_num



/-! ### Whitespace facts and the tokenizer on joined descriptions -/

lemma nospace_of_digit (c : Char) (h : c.isDigit = true) : isSpaceChar c = false := by
  cases hc : isSpaceChar c
  · rfl
  · exfalso
    simp only [isSpaceChar, Bool.or_eq_true, decide_eq_true_eq] at hc
    rcases hc with ((rfl | rfl) | rfl) | rfl <;> exact absurd h (by decide)

lemma nospace_formatQ (m : ℤ) (k : ℕ) :
    ∀ c ∈ formatQ m k, isSpaceChar c = false := by
  intro c hc
  rcases mem_formatQ m k c hc with h | h | h
  · exact nospace_of_digit c h
  · subst h; decide
  · subst h; decide

lemma nospace_addPos (m : Nat) (v : ℚ) :
    ∀ c ∈ addPosDescription m v, isSpaceChar c = false := by
  intro c hc
  unfold addPosDescription at hc
  rcases List.mem_append.mp hc with hc | hc
  · split at hc
    · rcases List.mem_append.mp hc with hc | hc
      · exact nospace_formatQ _ _ c hc
      · simp only [List.mem_singleton] at hc; subst hc; decide
    · rcases List.mem_append.mp hc with hc | hc
      · exact nospace_formatQ _ _ c hc
      · split at hc
        · simp only [List.mem_singleton] at hc; subst hc; decide
        · split at hc
          · simp only [List.mem_singleton] at hc; subst hc; decide
          · cases hc
  · split at hc
    · simp only [List.mem_singleton] at hc; subst hc; decide
    · split at hc
      · simp only [List.mem_singleton] at hc; subst hc; decide
      · cases hc

lemma nospace_addSize (m : Nat) (v : ℚ) :
    ∀ c ∈ addSizeDescription m v, isSpaceChar c = false := by
  intro c hc
  unfold addSizeDescription at hc
  split at hc
  · rcases List.mem_append.mp hc with hc | hc
    · exact nospace_formatQ _ _ c hc
    · simp only [List.mem_singleton] at hc; subst hc; decide
  · split at hc
    · rcases List.mem_append.mp hc with hc | hc
      · exact nospace_formatQ _ _ c hc
      · simp only [List.mem_singleton] at hc; subst hc; decide
    · exact nospace_formatQ _ _ c hc

lemma splitTokAux_append_space (a r : List Char) (acc : List Char)
    (h : ∀ c ∈ a, isSpaceChar c = false) :
    splitTokAux (a ++ ' ' :: r) acc = (acc.reverse ++ a) :: splitTokAux r [] := by
  induction a generalizing acc with
  | nil =>
    simp only [List.nil_append, List.append_nil, splitTokAux]
    rw [if_pos (by decide)]
  | cons x t ih =>
    have hx : isSpaceChar x = false := h x (List.mem_cons_self x t)
    simp only [List.cons_append, splitTokAux]
    rw [if_neg (by rw [hx]; exact Bool.false_ne_true)]
    simp only [List.append_eq]
    rw [ih (x :: acc) (fun c hc => h c (List.mem_cons_of_mem x hc))]
    simp

lemma splitTokAux_nospace (a : List Char) (acc : List Char)
    (h : ∀ c ∈ a, isSpaceChar c = false) :
    splitTokAux a acc = [acc.reverse ++ a] := by
  induction a generalizing acc with
  | nil => simp [splitTokAux]
  | cons x t ih =>
    have hx : isSpaceChar x = false := h x (List.mem_cons_self x t)
    simp only [splitTokAux]
    rw [if_neg (by rw [hx]; exact Bool.false_ne_true)]
    rw [ih (x :: acc) (fun c hc => h c (List.mem_cons_of_mem x hc))]
    simp

lemma tokenize_join2 (a b : List Char)
    (ha : ∀ c ∈ a, isSpaceChar c = false) (hb : ∀ c ∈ b, isSpaceChar c = false) :
    tokenize (a ++ ' ' :: b) = [a, b] := by
  unfold tokenize
  rw [if_neg (by simp)]
  rw [splitTokAux_append_space _ _ _ ha, splitTokAux_nospace _ _ hb]
  simp

/-- `toString` splits back into exactly its four tokens. -/
lemma tokenize_posRectToString (pr : PositionedRectangle) :
    tokenize (posRectToString pr) =
      [addPosDescription pr.xMode pr.x, addPosDescription pr.yMode pr.y,
       addSizeDescription pr.wMode pr.w, addSizeDescription pr.hMode pr.h] := by
  unfold tokenize posRectToString
  rw [if_neg (by simp)]
  rw [splitTokAux_append_space _ _ _ (nospace_addPos _ _),
    splitTokAux_append_space _ _ _ (nospace_addPos _ _),
    splitTokAux_append_space _ _ _ (nospace_addSize _ _),
    splitTokAux_nospace _ _ (nospace_addSize _ _)]
  simp


/-! ## Claims C4 and C10 -/

/-- Claim C4: parsing the output of `toString` yields identical mode bytes
and the raw values rounded at the stated precision of the text encoding:
3 decimal places of the percentage for proportional values (i.e. a grid of
`1/100000` on the raw fraction) and 2 decimal places for all other values. -/
theorem claim_C4 (P : PositionedRectangle)
    (hx : IsPosMode P.xMode) (hy : IsPosMode P.yMode)
    (hw : IsSizeMode P.wMode) (hh : IsSizeMode P.hMode) :
    posRectFromString (posRectToString P) =
      { P with
        x := if P.xMode &&& proportionOfParentSize ≠ 0
             then ((roundToInt (P.x * 100000) : ℤ) : ℚ) / 100000
             else ((roundToInt (P.x * 100) : ℤ) : ℚ) / 100,
        y := if P.yMode &&& proportionOfParentSize ≠ 0
             then ((roundToInt (P.y * 100000) : ℤ) : ℚ) / 100000
             else ((roundToInt (P.y * 100) : ℤ) : ℚ) / 100,
        w := if P.wMode = proportionalSize
             then ((roundToInt (P.w * 100000) : ℤ) : ℚ) / 100000
             else ((roundToInt (P.w * 100) : ℤ) : ℚ) / 100,
        h := if P.hMode = proportionalSize
             then ((roundToInt (P.h * 100000) : ℤ) : ℚ) / 100000
             else ((roundToInt (P.h * 100) : ℤ) : ℚ) / 100 } := by
  obtain ⟨px, py, pw, ph, pxm, pym, pwm, phm⟩ := P
  simp only at hx hy hw hh
  unfold posRectFromString
  rw [tokenize_posRectToString]
  unfold posRectFromTokens
  simp only [List.getD_cons_zero, List.getD_cons_succ]
  rw [decodePos_addPos pxm hx px, decodePos_addPos pym hy py,
    decodeSize_addSize pwm hw pw, decodeSize_addSize phm hh ph]

/-- Witness for claim C4: a concrete rectangle whose raw values already lie
on the encoding grid round-trips to itself. -/
theorem claim_C4_witness :
    posRectFromString (posRectToString ⟨1/2, 30, 150, 1/2, 65, 9, 1, 4⟩)
      = ⟨1/2, 30, 150, 1/2, 65, 9, 1, 4⟩ := by
  have h := claim_C4 ⟨1/2, 30, 150, 1/2, 65, 9, 1, 4⟩
    (by decide) (by decide) (by decide) (by decide)
  rw [h]
  with_unfolding_all decide

/-- Claim C10: `RelativePositionedRectangle::toString` returns exactly the
first two (X and Y) tokens of the owned rectangle's four-token text form,
joined by a single space; the width and height tokens are dropped, so the
result tokenizes back to only two tokens. -/
theorem claim_C10 (r : RelativePositionedRectangle) :
    RelativePositionedRectangle.toText r =
      addPosDescription r.rect.xMode r.rect.x ++ ' ' ::
        addPosDescription r.rect.yMode r.rect.y ∧
    (tokenize (RelativePositionedRectangle.toText r)).length = 2 := by
  have ht := tokenize_posRectToString r.rect
  have htext : RelativePositionedRectangle.toText r =
      addPosDescription r.rect.xMode r.rect.x ++ ' ' ::
        addPosDescription r.rect.yMode r.rect.y := by
    unfold RelativePositionedRectangle.toText
    rw [ht]
    simp only [List.getD_cons_zero, List.getD_cons_succ]
  refine ⟨htext, ?_⟩
  rw [htext, tokenize_join2 _ _ (nospace_addPos _ _) (nospace_addPos _ _)]
  rfl


end JuceRel
